import Mathlib

/-!
Verification development for the enum-exporter core of the
localizationsVisualizer repository (src/services/enum_exporter.py).

Strings are modelled as Lean `String` (a structure holding a `List Char`);
the character-level scanners and splitters of the Python source are
translated into structural recursions over `List Char` so that every
definition evaluates by kernel reduction.  Python's `str.lower` /
`str.upper` / `str.capitalize` are modelled by explicit ASCII case maps
(`lowerChar` / `upperChar`): in the source these builtins are only ever
applied to characters surviving the ASCII-only regex filters, where the
builtins coincide with the ASCII maps.
-/

/-- ASCII lowercase letter test, `[a-z]` of the source's regexes. -/
def isLowerA (c : Char) : Bool := 'a' ≤ c && c ≤ 'z'

/-- ASCII uppercase letter test, `[A-Z]` of the source's regexes. -/
def isUpperA (c : Char) : Bool := 'A' ≤ c && c ≤ 'Z'

/-- ASCII digit test, `[0-9]` of the source's regexes. -/
def isDigitA (c : Char) : Bool := '0' ≤ c && c ≤ '9'

/-- ASCII alphanumeric, `[a-zA-Z0-9]` of the source's regexes. -/
def isAlnumA (c : Char) : Bool := isLowerA c || isUpperA c || isDigitA c

/-- Whitespace class `\s` of the source's regexes (ASCII part):
space, tab, newline, carriage return, vertical tab, form feed. -/
def isWsA (c : Char) : Bool :=
  c = ' ' || c = '\t' || c = '\n' || c = '\r' || c = '\x0b' || c = '\x0c'

/-- The separator class `[\s\-_.]` used by `to_camel_case_key`. -/
def isSepA (c : Char) : Bool := isWsA c || c = '-' || c = '_' || c = '.'

/-- ASCII lower-casing of one character (model of Python `str.lower`
restricted to ASCII). -/
def lowerChar (c : Char) : Char :=
  if c = 'A' then 'a' else if c = 'B' then 'b' else if c = 'C' then 'c'
  else if c = 'D' then 'd' else if c = 'E' then 'e' else if c = 'F' then 'f'
  else if c = 'G' then 'g' else if c = 'H' then 'h' else if c = 'I' then 'i'
  else if c = 'J' then 'j' else if c = 'K' then 'k' else if c = 'L' then 'l'
  else if c = 'M' then 'm' else if c = 'N' then 'n' else if c = 'O' then 'o'
  else if c = 'P' then 'p' else if c = 'Q' then 'q' else if c = 'R' then 'r'
  else if c = 'S' then 's' else if c = 'T' then 't' else if c = 'U' then 'u'
  else if c = 'V' then 'v' else if c = 'W' then 'w' else if c = 'X' then 'x'
  else if c = 'Y' then 'y' else if c = 'Z' then 'z' else c

/-- ASCII upper-casing of one character (model of Python `str.upper`
restricted to ASCII). -/
def upperChar (c : Char) : Char :=
  if c = 'a' then 'A' else if c = 'b' then 'B' else if c = 'c' then 'C'
  else if c = 'd' then 'D' else if c = 'e' then 'E' else if c = 'f' then 'F'
  else if c = 'g' then 'G' else if c = 'h' then 'H' else if c = 'i' then 'I'
  else if c = 'j' then 'J' else if c = 'k' then 'K' else if c = 'l' then 'L'
  else if c = 'm' then 'M' else if c = 'n' then 'N' else if c = 'o' then 'O'
  else if c = 'p' then 'P' else if c = 'q' then 'Q' else if c = 'r' then 'R'
  else if c = 's' then 'S' else if c = 't' then 'T' else if c = 'u' then 'U'
  else if c = 'v' then 'V' else if c = 'w' then 'W' else if c = 'x' then 'X'
  else if c = 'y' then 'Y' else if c = 'z' then 'Z' else c

/-- Python `str.capitalize`: first character upper-cased, the rest
lower-cased. -/
def capitalize (l : List Char) : List Char :=
  match l with
  | [] => []
  | c :: cs => upperChar c :: cs.map lowerChar

/-- `re.split(r'[<p>]+', text)`: split a character list on maximal runs of
separators, keeping the (possibly empty) tokens between runs.  Mirrors
Python `re.split` semantics: `""` gives `[""]`, a leading/trailing
separator run produces an empty token at that end. -/
def splitRuns (p : Char → Bool) : List Char → List (List Char)
  | [] => [[]]
  | c :: rest =>
    if p c then
      match rest with
      | [] => [[], []]
      | c2 :: _ =>
        if p c2 then splitRuns p rest else [] :: splitRuns p rest
    else
      match splitRuns p rest with
      | [] => [[c]]
      | t :: ts => (c :: t) :: ts

/-- Python `str.split(sep)` for a one-character separator: split at every
occurrence, keeping empty tokens (so consecutive separators yield `""`). -/
def pySplit (sep : Char) : List Char → List (List Char)
  | [] => [[]]
  | c :: rest =>
    if c = sep then
      [] :: pySplit sep rest
    else
      match pySplit sep rest with
      | [] => [[c]]
      | t :: ts => (c :: t) :: ts

/-- Python `str.split(', ')`: split at every occurrence of the two-character
separator `", "`, scanning left to right, keeping empty tokens. -/
def splitCommaSpace : List Char → List (List Char)
  | [] => [[]]
  | ',' :: ' ' :: rest => [] :: splitCommaSpace rest
  | c :: rest =>
    match splitCommaSpace rest with
    | [] => [[c]]
    | t :: ts => (c :: t) :: ts

/-- Python `str.strip()` (ASCII whitespace model): drop leading and
trailing whitespace. -/
def pyStrip (l : List Char) : List Char :=
  ((l.dropWhile isWsA).reverse.dropWhile isWsA).reverse

/-- Python's substring test `needle in hay`. -/
def strContains (hay needle : String) : Bool :=
  (hay.data.tails).any (fun t => needle.data.isPrefixOf t)

/-- `re.sub(r'(?<=[a-z])(?=[A-Z])', '_', text)` of `to_camel_case_key`:
insert `'_'` at every lowercase-to-uppercase transition. -/
def camelPassOne : List Char → List Char
  | c1 :: c2 :: rest =>
    if isLowerA c1 && isUpperA c2 then
      c1 :: '_' :: camelPassOne (c2 :: rest)
    else
      c1 :: camelPassOne (c2 :: rest)
  | l => l

/-- `re.sub(r'(?<=[A-Z])(?=[A-Z][a-z])', '_', text)` of `to_camel_case_key`:
insert `'_'` between two uppercase letters when the second is followed by a
lowercase letter (acronym boundary). -/
def camelPassTwo : List Char → List Char
  | c1 :: c2 :: c3 :: rest =>
    if isUpperA c1 && (isUpperA c2 && isLowerA c3) then
      c1 :: '_' :: camelPassTwo (c2 :: c3 :: rest)
    else
      c1 :: camelPassTwo (c2 :: c3 :: rest)
  | l => l

/-- `EnumExporter.to_upper_camel_case` (enum_exporter.py lines 10-18). -/
def to_upper_camel_case (text : String) : String :=
  if text = "" then "Unknown"
  else
    let cleaned := text.data.map (fun c => if isAlnumA c || isWsA c then c else ' ')
    let words := (splitRuns isWsA cleaned).filter (fun w => w ≠ [])
    String.join (words.map (fun w => String.mk (capitalize w)))

/-- `EnumExporter.to_camel_case_key` (enum_exporter.py lines 20-46). -/
def to_camel_case_key (text : String) : String :=
  if text = "" then "unknown"
  else
    let cleaned := text.data.filter (fun c => isAlnumA c || isSepA c)
    let marked := camelPassTwo (camelPassOne cleaned)
    let parts := splitRuns isSepA marked
    match parts with
    | [] => "unknown"
    | p :: rest =>
      String.mk (rest.foldl
        (fun acc part => if part ≠ [] then acc ++ capitalize part else acc)
        (p.map lowerChar))

/-- The Swift keyword set of `generate_case_name`. -/
def swift_keywords : List String :=
  ["case", "class", "struct", "enum", "protocol", "let", "var", "func",
   "in", "for", "while", "if", "else", "return", "public", "private",
   "internal", "static", "default", "switch"]

/-- `key.split('.')[-1]`: the text after the last dot. -/
def afterLastDot (l : List Char) : List Char :=
  ((l.reverse.takeWhile (fun c => c ≠ '.')).reverse)

/-- The digit-leading guard of the case-name generators: a name whose
first character is a digit is prefixed with the given literal
(`"key"` for Swift, `"KEY_"` for Kotlin). -/
def digit_guard (pre cn : String) : String :=
  if cn ≠ "" && (cn.data.headD ' ').isDigit then pre ++ cn else cn

/-- The keyword-escaping tail of `generate_case_name` (lines 59-69):
backtick-wrap Swift keywords, and fall back to `"unknown"` on the empty
name (`return case_name or "unknown"`). -/
def escape_swift (cn : String) : String :=
  if swift_keywords.contains cn then "`" ++ cn ++ "`"
  else if cn = "" then "unknown"
  else cn

/-- `EnumExporter.generate_case_name` (enum_exporter.py lines 48-69). -/
def generate_case_name (key : String) : String :=
  let clean_key := if key.data.contains '.' then String.mk (afterLastDot key.data) else key
  escape_swift (digit_guard "key" (to_camel_case_key clean_key))

/-- The Kotlin keyword set of `generate_kotlin_case_name`. -/
def kotlin_keywords : List String :=
  ["class", "object", "interface", "enum", "fun", "val", "var", "const",
   "in", "is", "as", "for", "while", "if", "else", "when", "return",
   "public", "private", "internal", "protected", "open", "abstract",
   "final", "data", "sealed", "companion", "init", "this", "super",
   "null", "true", "false", "throw", "try", "catch", "finally"]

/-- The keyword-escaping tail of `generate_kotlin_case_name` (lines
477-489): membership is tested on the lower-cased name, and the empty
name falls back to `"UNKNOWN"` (`return case_name or "UNKNOWN"`). -/
def escape_kotlin (cn : String) : String :=
  if kotlin_keywords.contains (String.mk (cn.data.map lowerChar)) then
    "`" ++ cn ++ "`"
  else if cn = "" then "UNKNOWN"
  else cn

/-- The `.replace('-', '_').replace(' ', '_').upper()` chain of
`generate_kotlin_case_name` (lines 468-471). -/
def kotlin_upper (s : String) : String :=
  String.mk (((s.data.map (fun c => if c = '-' then '_' else c)).map
    (fun c => if c = ' ' then '_' else c)).map upperChar)

/-- `EnumExporter.generate_kotlin_case_name` (enum_exporter.py lines
463-489). -/
def generate_kotlin_case_name (key : String) : String :=
  let clean_key := if key.data.contains '.' then String.mk (afterLastDot key.data) else key
  escape_kotlin (digit_guard "KEY_" (kotlin_upper (to_camel_case_key clean_key)))

/-- The scanning loop of `extract_substitution_parameters` (lines 76-92):
left-to-right scan collecting `'String'` for `%@` and `'Int'` for `%d`;
a `%` followed by any other character, or with no following character,
contributes nothing. -/
def scanParams : List Char → List String
  | [] => []
  | c :: rest =>
    match rest with
    | [] => []
    | c2 :: rest2 =>
      if c = '%' then
        if c2 = '@' then "String" :: scanParams rest2
        else if c2 = 'd' then "Int" :: scanParams rest2
        else scanParams (c2 :: rest2)
      else scanParams (c2 :: rest2)

/-- `EnumExporter.extract_substitution_parameters` (lines 71-94). -/
def extract_substitution_parameters (value : String) : String :=
  if value = "" then ""
  else String.intercalate ", " (scanParams value.data)

/-- The scanning loop of `extract_kotlin_parameters` (lines 496-518),
threading the 1-based `param_index`; returns the pair of the
constructor-parameter pieces and the bare type names. -/
def scanKotlinParams : List Char → Nat → List String × List String
  | [], _ => ([], [])
  | c :: rest, k =>
    match rest with
    | [] => ([], [])
    | c2 :: rest2 =>
      if c = '%' then
        if c2 = '@' then
          let r := scanKotlinParams rest2 (k + 1)
          (("val param" ++ toString k ++ ": String") :: r.1, "String" :: r.2)
        else if c2 = 'd' then
          let r := scanKotlinParams rest2 (k + 1)
          (("val param" ++ toString k ++ ": Int") :: r.1, "Int" :: r.2)
        else scanKotlinParams (c2 :: rest2) k
      else scanKotlinParams (c2 :: rest2) k

/-- `EnumExporter.extract_kotlin_parameters` (lines 491-523). -/
def extract_kotlin_parameters (value : String) : String × String :=
  if value = "" then ("", "")
  else
    let r := scanKotlinParams value.data 1
    (String.intercalate ", " r.1, String.intercalate ", " r.2)

example : to_camel_case_key "NHLLeaders" = "nhlLeaders" := by decide
example : to_camel_case_key "confirm_button" = "confirmButton" := by decide
example : generate_kotlin_case_name "confirm_button" = "CONFIRMBUTTON" := by decide
example : generate_kotlin_case_name "someKey" = "SOMEKEY" := by decide
example : to_upper_camel_case "!!!" = "" := by decide
example : to_camel_case_key "!!!" = "" := by decide
example : generate_case_name "!!!" = "unknown" := by decide
example : generate_case_name "case" = "`case`" := by decide
example : generate_case_name "9lives" = "key9lives" := by decide
example : generate_kotlin_case_name "9lives" = "KEY_9LIVES" := by decide
example : extract_substitution_parameters "%@ and %d" = "String, Int" := by decide
example : extract_substitution_parameters "%d then %@" = "Int, String" := by decide
example : extract_substitution_parameters "no markers here" = "" := by decide
example : extract_kotlin_parameters "%@ and %d" =
    ("val param1: String, val param2: Int", "String, Int") := by decide
example : scanParams "%@ and %d".data = ["String", "Int"] := by decide

/-- A localization entry as consumed by the emitters: the `'key'` and
`'value'` fields of the source's entry dicts (a missing field reads as
`""` via `entry.get(..., '')`). -/
structure Entry where
  key : String
  value : String
deriving Repr, DecidableEq, Inhabited

/-- A section record: the `'title'` and `'key'` fields of the source's
section dicts. -/
structure SectionData where
  title : String
  key : String
deriving Repr, DecidableEq, Inhabited

/-- A Swift test-case record as built by
`generate_section_enum_from_entries_with_test_cases` (lines 350-356). -/
structure TestCase where
  section_name : String
  case_name : String
  parameters : String
deriving Repr, DecidableEq, Inhabited

/-- A Kotlin test-case record as built by
`generate_kotlin_section_enum_from_entries_with_test_cases`
(lines 791-797); the parameter field holds the bare type names. -/
structure KotlinTestCase where
  section_name : String
  case_name : String
  param_types : String
deriving Repr, DecidableEq, Inhabited

/-- Python's `"    " * level`. -/
def indentOf (level : Nat) : String :=
  String.join (List.replicate level "    ")

/-- Python's string comparison `a <= b`: lexicographic on code points. -/
def keyLe : List Char → List Char → Bool
  | [], _ => true
  | _ :: _, [] => false
  | x :: xs, y :: ys =>
    if x < y then true
    else if y < x then false
    else keyLe xs ys

/-- `sorted(entries, key=lambda x: x.get('key', ''))`: stable sort by the
entry key, lexicographically on code points. -/
def sorted_entries (entries : List Entry) : List Entry :=
  entries.mergeSort (fun a b => keyLe a.key.data b.key.data)

/-- `len(parameters.split(','))` of the Swift emitter. -/
def paramCount (ps : String) : Nat :=
  (pySplit ',' ps.data).length

/-- `len([p for p in constructor_params.split(',') if p.strip()])` of the
Kotlin emitter. -/
def kotlinParamCount (cp : String) : Nat :=
  ((pySplit ',' cp.data).filter (fun p => pyStrip p ≠ [])).length

/-- One iteration of the Swift entry loop (lines 270-283): an entry with
a non-empty key appends its case definition and key mapping. -/
def swift_case_step (ind : String) (acc : List String × List (String × String × String))
    (e : Entry) : List String × List (String × String × String) :=
  if e.key ≠ "" then
    let case_name := generate_case_name e.key
    let parameters := extract_substitution_parameters e.value
    let cd :=
      if parameters ≠ "" then
        ind ++ "    case " ++ case_name ++ "(" ++ parameters ++ ")"
      else ind ++ "    case " ++ case_name
    (acc.1 ++ [cd], acc.2 ++ [(case_name, e.key, parameters)])
  else acc

/-- The entry loop of the Swift section emitter (lines 268-283): builds
`case_definitions` and `key_mappings` over the sorted entries, skipping
entries with an empty key. -/
def swift_build_cases (ind : String) (entries : List Entry) :
    List String × List (String × String × String) :=
  (sorted_entries entries).foldl (swift_case_step ind) ([], [])

/-- One arm of the Swift `key` switch (lines 292-298). -/
def swiftKeyArm (ind : String) (m : String × String × String) : String :=
  if m.2.2 ≠ "" then
    ind ++ "        case ." ++ m.1 ++ "(" ++
      String.intercalate ", " (List.replicate (paramCount m.2.2) "_") ++
      "): return \"" ++ m.2.1 ++ "\"\n"
  else
    ind ++ "        case ." ++ m.1 ++ ": return \"" ++ m.2.1 ++ "\"\n"

/-- One arm of the Swift `parameters` switch (lines 331-336). -/
def swiftParamArm (ind : String) (m : String × String) : String :=
  let names := String.intercalate ", "
    ((List.range (paramCount m.2)).map (fun i => "param" ++ toString (i + 1)))
  ind ++ "        case let ." ++ m.1 ++ "(" ++ names ++ "):\n" ++
    ind ++ "            return [" ++ names ++ "]\n"

/-- `EnumExporter.generate_section_enum_from_entries_with_test_cases`
(lines 256-358): emits the Swift enum text for one section and returns it
together with the collected test-case records. -/
def generate_section_enum_from_entries_with_test_cases
    (s : SectionData) (entries : List Entry) (level : Nat) :
    String × List TestCase :=
  let ind := indentOf level
  let section_name := to_upper_camel_case s.title
  let section_key := s.key
  let header :=
    ind ++ "public enum " ++ section_name ++ ": LocalizationKey \x7b\n" ++
    ind ++ "    public var filename: String \x7b \"" ++ section_key ++ "\" \x7d\n\n"
  let built := swift_build_cases ind entries
  let case_definitions := built.1
  let key_mappings := built.2
  let body :=
    if case_definitions ≠ [] then
      String.intercalate "\n" case_definitions ++
      "\n\n" ++ ind ++ "    public var key: String \x7b\n" ++
      ind ++ "        switch self \x7b\n" ++
      String.join (key_mappings.map (swiftKeyArm ind)) ++
      ind ++ "        \x7d\n" ++ ind ++ "    \x7d\n" ++
      "\n" ++ ind ++ "    public var hasParameters: Bool \x7b\n" ++
      (let cw := key_mappings.filterMap
        (fun m => if m.2.2 ≠ "" then some m.1 else none)
       if cw ≠ [] then
         ind ++ "        switch self \x7b\n" ++
         ind ++ "        case " ++
         String.intercalate ", " (cw.map (fun cn => "." ++ cn)) ++ ":\n" ++
         ind ++ "            return true\n" ++
         ind ++ "        default:\n" ++
         ind ++ "            return false\n" ++
         ind ++ "        \x7d\n"
       else ind ++ "        return false\n") ++
      ind ++ "    \x7d\n" ++
      "\n" ++ ind ++ "    public var parameters: [any CVarArg]? \x7b\n" ++
      (let cwp := key_mappings.filterMap
        (fun m => if m.2.2 ≠ "" then some (m.1, m.2.2) else none)
       if cwp ≠ [] then
         ind ++ "        switch self \x7b\n" ++
         String.join (cwp.map (swiftParamArm ind)) ++
         ind ++ "        default:\n" ++
         ind ++ "            return nil\n" ++
         ind ++ "        \x7d\n"
       else ind ++ "        return nil\n") ++
      ind ++ "    \x7d\n"
    else ""
  let enum_code := header ++ body ++ ind ++ "\x7d\n\n"
  let test_cases := key_mappings.map
    (fun m => TestCase.mk section_name m.1 m.2.2)
  (enum_code, test_cases)

/-- One iteration of the Kotlin entry loop (lines 709-721). -/
def kotlin_case_step (ind : String)
    (acc : List String × List (String × String × String × String))
    (e : Entry) : List String × List (String × String × String × String) :=
  if e.key ≠ "" then
    let case_name := generate_kotlin_case_name e.key
    let ex := extract_kotlin_parameters e.value
    let cd :=
      if ex.1 ≠ "" then
        ind ++ "    " ++ case_name ++ "(" ++ ex.1 ++ ")"
      else ind ++ "    " ++ case_name
    (acc.1 ++ [cd], acc.2 ++ [(case_name, e.key, ex.1, ex.2)])
  else acc

/-- The entry loop of the Kotlin section emitter (lines 707-721). -/
def kotlin_build_cases (ind : String) (entries : List Entry) :
    List String × List (String × String × String × String) :=
  (sorted_entries entries).foldl (kotlin_case_step ind) ([], [])

/-- One arm of the Kotlin `key` property (lines 735-741). -/
def kotlinKeyArm (ind : String) (m : String × String × String × String) : String :=
  if m.2.2.1 ≠ "" then
    ind ++ "            is " ++ m.1 ++ " -> \"" ++ m.2.1 ++ "\"\n"
  else
    ind ++ "            " ++ m.1 ++ " -> \"" ++ m.2.1 ++ "\"\n"

/-- One arm of the Kotlin `parameters` property (lines 769-772). -/
def kotlinParamArm (ind : String) (m : String × String) : String :=
  let names := String.intercalate ", "
    ((List.range (kotlinParamCount m.2)).map (fun i => "param" ++ toString (i + 1)))
  ind ++ "            is " ++ m.1 ++ " -> arrayOf(" ++ names ++ ")\n"

/-- `EnumExporter.generate_kotlin_section_enum_from_entries_with_test_cases`
(lines 695-799).  Note: the `filename` constant is emitted inside the
`if case_definitions:` block, so it is absent when the section has no
cases. -/
def generate_kotlin_section_enum_from_entries_with_test_cases
    (s : SectionData) (entries : List Entry) (level : Nat) :
    String × List KotlinTestCase :=
  let ind := indentOf level
  let section_name := to_upper_camel_case s.title
  let section_key := s.key
  let header := ind ++ "enum class " ++ section_name ++ " : LocalizationKey \x7b\n"
  let built := kotlin_build_cases ind entries
  let case_definitions := built.1
  let key_mappings := built.2
  let body :=
    if case_definitions ≠ [] then
      String.intercalate "\n" case_definitions ++ ";\n\n" ++
      ind ++ "    override val filename: String = \"" ++ section_key ++ "\"\n\n" ++
      ind ++ "    override val key: String\n" ++
      ind ++ "        get() = when (this) \x7b\n" ++
      String.join (key_mappings.map (kotlinKeyArm ind)) ++
      ind ++ "        \x7d\n\n" ++
      ind ++ "    override val hasParameters: Boolean\n" ++
      ind ++ "        get() = when (this) \x7b\n" ++
      (let cw := key_mappings.filterMap
        (fun m => if m.2.2.1 ≠ "" then some m.1 else none)
       if cw ≠ [] then
         ind ++ "            " ++
         String.intercalate ", " (cw.map (fun cn => "is " ++ cn)) ++
         " -> true\n" ++ ind ++ "            else -> false\n"
       else ind ++ "            else -> false\n") ++
      ind ++ "        \x7d\n\n" ++
      ind ++ "    override val parameters: Array<Any>?\n" ++
      ind ++ "        get() = when (this) \x7b\n" ++
      (let cwp := key_mappings.filterMap
        (fun m => if m.2.2.1 ≠ "" then some (m.1, m.2.2.1) else none)
       if cwp ≠ [] then
         String.join (cwp.map (kotlinParamArm ind)) ++
         ind ++ "            else -> null\n"
       else ind ++ "            else -> null\n") ++
      ind ++ "        \x7d\n\n" ++
      ind ++ "    companion object \x7b\n" ++
      ind ++ "        fun findByKey(key: String): " ++ section_name ++ "? \x7b\n" ++
      ind ++ "            return values().find \x7b it.key == key \x7d\n" ++
      ind ++ "        \x7d\n" ++
      ind ++ "    \x7d\n"
    else ""
  let enum_code := header ++ body ++ ind ++ "\x7d\n\n"
  let test_cases := key_mappings.map
    (fun m => KotlinTestCase.mk section_name m.1 m.2.2.2)
  (enum_code, test_cases)

/-- The keys of a Python dict built by repeated
`if k not in d: d[k] = ...` insertion: first-occurrence order,
duplicates dropped. -/
def dictKeys (l : List String) : List String :=
  l.foldl (fun acc s => if acc.contains s then acc else acc ++ [s]) []

/-- `cases_by_section[name]` of `generate_consistent_testing_helper`:
the test cases carrying the given section name, in inventory order. -/
def casesFor (tcs : List TestCase) (name : String) : List TestCase :=
  tcs.filter (fun tc => tc.section_name == name)

/-- The per-index rendering of one sampled invocation
(`generate_consistent_testing_helper`, lines 209-228): parameters are
synthesized from the sample index `i` and the 0-based parameter
position, with Python's substring tests `'String' in param_type` /
`'Int' in param_type`. -/
def renderSampleCase (i : Nat) (tc : TestCase) : String :=
  if tc.parameters ≠ "" then
    let param_types := (splitCommaSpace tc.parameters.data).map String.mk
    let sample_params := param_types.enum.map (fun jp =>
      if strContains jp.2 "String" then
        "\"Test" ++ toString (i + 1) ++ "Param" ++ toString (jp.1 + 1) ++ "\""
      else if strContains jp.2 "Int" then
        toString ((i + 1) * (jp.1 + 1))
      else
        "\"Value" ++ toString (i + 1) ++ "_" ++ toString (jp.1 + 1) ++ "\"")
    tc.section_name ++ "." ++ tc.case_name ++ "(" ++
      String.intercalate ", " sample_params ++ ")"
  else
    tc.section_name ++ "." ++ tc.case_name

/-- The `consistent_cases` list of
`EnumExporter.generate_consistent_testing_helper` (lines 178-228): the
300 deterministically sampled invocations (empty when the inventory
yields no sections, in which case the source returns `""`). -/
def consistent_cases (all_test_cases : List TestCase) : List String :=
  let sections := dictKeys (all_test_cases.map (fun tc => tc.section_name))
  if sections = [] then []
  else
    (List.range 300).map (fun i =>
      let section_index := (i * 7 + i / 3) % sections.length
      let current_section := sections.getD section_index ""
      let section_cases := casesFor all_test_cases current_section
      let case_index := (i * 3 + i / 5) % section_cases.length
      renderSampleCase i (section_cases.getD case_index default))

/-- `cases_by_section[name]` of the Kotlin testing helper. -/
def kotlinCasesFor (tcs : List KotlinTestCase) (name : String) : List KotlinTestCase :=
  tcs.filter (fun tc => tc.section_name == name)

/-- The per-index rendering of one sampled Kotlin invocation
(`generate_kotlin_consistent_testing_helper`, lines 643-662). -/
def kotlinRenderSampleCase (i : Nat) (tc : KotlinTestCase) : String :=
  if tc.param_types ≠ "" then
    let param_type_list := (splitCommaSpace tc.param_types.data).map String.mk
    let sample_params := param_type_list.enum.map (fun jp =>
      if strContains jp.2 "String" then
        "\"Test" ++ toString (i + 1) ++ "Param" ++ toString (jp.1 + 1) ++ "\""
      else if strContains jp.2 "Int" then
        toString ((i + 1) * (jp.1 + 1))
      else
        "\"Value" ++ toString (i + 1) ++ "_" ++ toString (jp.1 + 1) ++ "\"")
    "Localizations." ++ tc.section_name ++ "." ++ tc.case_name ++ "(" ++
      String.intercalate ", " sample_params ++ ")"
  else
    "Localizations." ++ tc.section_name ++ "." ++ tc.case_name

/-- The `consistent_cases` list of
`EnumExporter.generate_kotlin_consistent_testing_helper` (lines 612-662). -/
def kotlin_consistent_cases (all_test_cases : List KotlinTestCase) : List String :=
  let sections := dictKeys (all_test_cases.map (fun tc => tc.section_name))
  if sections = [] then []
  else
    (List.range 300).map (fun i =>
      let section_index := (i * 7 + i / 3) % sections.length
      let current_section := sections.getD section_index ""
      let section_cases := kotlinCasesFor all_test_cases current_section
      let case_index := (i * 3 + i / 5) % section_cases.length
      kotlinRenderSampleCase i (section_cases.getD case_index default))

/-- Restatement of the sampler's per-case rendering in the words of the
specification (for refinement comparison): string-typed parameters render
as `"Test{i+1}Param{j+1}"`, integer-typed parameters as `(i+1)*(j+1)`,
any other declared type as the fallback string literal. -/
def specRenderCase (i : Nat) (tc : TestCase) : String :=
  if tc.parameters = "" then tc.section_name ++ "." ++ tc.case_name
  else
    tc.section_name ++ "." ++ tc.case_name ++ "(" ++
      String.intercalate ", "
        (((splitCommaSpace tc.parameters.data).map String.mk).enum.map (fun jp =>
          if jp.2 = "String" then
            "\"Test" ++ toString (i + 1) ++ "Param" ++ toString (jp.1 + 1) ++ "\""
          else if jp.2 = "Int" then
            toString ((i + 1) * (jp.1 + 1))
          else
            "\"Value" ++ toString (i + 1) ++ "_" ++ toString (jp.1 + 1) ++ "\"")) ++ ")"

/-- Restatement of the sampler's per-index selection in the words of the
specification: section `sections[(i*7 + i//3) mod S]`, then case index
`(i*3 + i//5) mod L` within that section's case list. -/
def specSampleAt (all_test_cases : List TestCase) (i : Nat) : String :=
  let sections := dictKeys (all_test_cases.map (fun tc => tc.section_name))
  let sc := casesFor all_test_cases (sections.getD ((i * 7 + i / 3) % sections.length) "")
  specRenderCase i (sc.getD ((i * 3 + i / 5) % sc.length) default)

lemma splitRuns_ne_nil (p : Char → Bool) (l : List Char) : splitRuns p l ≠ [] := by
  induction l using splitRuns.induct p with
  | case1 => simp [splitRuns]
  | case2 c hc => simp [splitRuns, hc]
  | case3 c hc c1 cs hc1 ih => rw [splitRuns.eq_3, if_pos hc, if_pos hc1]; exact ih
  | case4 c hc c1 cs hc1 ih => rw [splitRuns.eq_3, if_pos hc, if_neg hc1]; simp
  | case5 c cs hc hnil ih => exact absurd hnil ih
  | case6 c cs hc t ts heq ih =>
    cases cs with
    | nil => rw [splitRuns.eq_2, splitRuns.eq_1]; split <;> simp
    | cons a b =>
      rw [splitRuns.eq_3, if_neg hc, heq]
      simp

lemma mem_splitRuns {p : Char → Bool} {l : List Char} :
    ∀ part ∈ splitRuns p l, ∀ c ∈ part, c ∈ l ∧ p c = false := by
  induction l using splitRuns.induct p with
  | case1 => simp [splitRuns]
  | case2 c hc => simp [splitRuns, hc]
  | case3 c hc c1 cs hc1 ih =>
    rw [splitRuns.eq_3, if_pos hc, if_pos hc1]
    intro part hpart x hx
    have h2 := ih part hpart x hx
    exact ⟨List.mem_cons_of_mem _ h2.1, h2.2⟩
  | case4 c hc c1 cs hc1 ih =>
    rw [splitRuns.eq_3, if_pos hc, if_neg hc1]
    intro part hpart x hx
    rcases List.mem_cons.mp hpart with h | h
    · subst h; simp at hx
    · have h2 := ih part h x hx
      exact ⟨List.mem_cons_of_mem _ h2.1, h2.2⟩
  | case5 c cs hc hnil ih => exact absurd hnil (splitRuns_ne_nil p cs)
  | case6 c cs hc t ts heq ih =>
    have hc' : p c = false := by simpa using hc
    have hrw : splitRuns p (c :: cs) = (c :: t) :: ts := by
      cases cs with
      | nil =>
        simp [splitRuns] at heq
        rw [splitRuns.eq_2, splitRuns.eq_1, heq.1, heq.2]
        simp [hc']
      | cons a b => rw [splitRuns.eq_3, if_neg hc, heq]
    rw [hrw]
    intro part hpart x hx
    rcases List.mem_cons.mp hpart with h | h
    · subst h
      rcases List.mem_cons.mp hx with h1 | h1
      · subst h1; exact ⟨List.mem_cons_self _ _, hc'⟩
      · have h2 := ih t (by rw [heq]; exact List.mem_cons_self _ _) x h1
        exact ⟨List.mem_cons_of_mem _ h2.1, h2.2⟩
    · have h2 := ih part (by rw [heq]; exact List.mem_cons_of_mem _ h) x hx
      exact ⟨List.mem_cons_of_mem _ h2.1, h2.2⟩

lemma splitRuns_all_sep {p : Char → Bool} {l : List Char}
    (h : ∀ c ∈ l, p c = true) : ∀ part ∈ splitRuns p l, part = [] := by
  intro part hpart
  by_contra hne
  rcases List.exists_mem_of_ne_nil part hne with ⟨x, hx⟩
  have h2 := mem_splitRuns part hpart x hx
  rw [h x h2.1] at h2
  exact absurd h2.2 (by simp)

lemma scanParams_append_pct : ∀ l : List Char, scanParams (l ++ ['%']) = scanParams l := by
  intro l
  induction l using scanParams.induct with
  | case1 => rfl
  | case2 c =>
    by_cases h : c = '%'
    · subst h; rfl
    · simp [scanParams, h]
  | case3 cs ih => simpa [scanParams] using ih
  | case4 cs h ih => simpa [scanParams] using ih
  | case5 c cs h1 h2 ih => simpa [scanParams, h1, h2] using ih
  | case6 c c1 cs h ih => simpa [scanParams, h] using ih

lemma scanKotlinParams_append_pct :
    ∀ (l : List Char) (k : Nat), scanKotlinParams (l ++ ['%']) k = scanKotlinParams l k := by
  intro l k
  induction l, k using scanKotlinParams.induct with
  | case1 k => rfl
  | case2 c k =>
    by_cases h : c = '%'
    · subst h; rfl
    · simp [scanKotlinParams, h]
  | case3 k cs ih => simp only [List.cons_append]; rw [scanKotlinParams, scanKotlinParams]; simp [ih]
  | case4 k cs h ih => simp only [List.cons_append]; rw [scanKotlinParams, scanKotlinParams]; simp [ih]
  | case5 k c cs h1 h2 ih => simpa [scanKotlinParams, h1, h2] using ih
  | case6 c k c1 cs h ih => simpa [scanKotlinParams, h] using ih

/-- Claim C1: the format-parameter extractor scans left to right and emits
the parameter types in marker order: `%@` contributes `String`, `%d`
contributes `Int`, and `%` followed by any other character contributes
nothing; in particular the two example strings extract in order of
appearance and a marker-free string yields no parameters. -/
theorem C1_extractor_scans_in_order :
    (∀ l : List Char, scanParams ('%' :: '@' :: l) = "String" :: scanParams l) ∧
    (∀ l : List Char, scanParams ('%' :: 'd' :: l) = "Int" :: scanParams l) ∧
    (∀ (c : Char) (l : List Char), c ≠ '@' → c ≠ 'd' →
      scanParams ('%' :: c :: l) = scanParams (c :: l)) ∧
    (∀ (c : Char) (l : List Char), c ≠ '%' → scanParams (c :: l) = scanParams l) ∧
    scanParams ("%@ and %d").data = ["String", "Int"] ∧
    scanParams ("%d then %@").data = ["Int", "String"] ∧
    scanParams ("no markers here").data = [] ∧
    extract_substitution_parameters "%@ and %d" = "String, Int" ∧
    extract_substitution_parameters "%d then %@" = "Int, String" ∧
    extract_substitution_parameters "no markers here" = "" ∧
    extract_kotlin_parameters "%@ and %d" =
      ("val param1: String, val param2: Int", "String, Int") := by
  refine ⟨fun l => rfl, fun l => rfl, ?_, ?_, ?_, ?_, ?_, ?_, ?_, ?_, ?_⟩
  · intro c l h1 h2
    simp [scanParams, h1, h2]
  · intro c l h
    cases l with
    | nil => simp [scanParams]
    | cons c1 cs => simp [scanParams, h]
  all_goals decide

theorem C1_extractor_scans_in_order_witness :
    scanParams ('%' :: 'x' :: ['a']) = scanParams ('x' :: ['a']) ∧
    scanParams ('x' :: ['a']) = scanParams ['a'] := by
  refine ⟨C1_extractor_scans_in_order.2.2.1 'x' ['a'] (by decide) (by decide),
    C1_extractor_scans_in_order.2.2.2.1 'x' ['a'] (by decide)⟩

lemma isUpperA_underscore : isUpperA '_' = false := by decide

lemma isLowerA_eq_false_of_isUpperA {c : Char} (h : isUpperA c = true) :
    isLowerA c = false := by
  simp only [isUpperA, Bool.and_eq_true, decide_eq_true_eq] at h
  simp only [isLowerA, Bool.and_eq_false_iff, decide_eq_false_iff_not]
  left
  intro h3
  exact absurd (le_trans h3 h.2) (by decide)

lemma camelPassOne_cons_head (c : Char) (l : List Char) :
    ∃ t, camelPassOne (c :: l) = c :: t := by
  cases l with
  | nil => exact ⟨[], rfl⟩
  | cons x xs =>
    cases h : isLowerA c && isUpperA x with
    | true => exact ⟨'_' :: camelPassOne (x :: xs), by rw [camelPassOne, if_pos h]⟩
    | false => exact ⟨camelPassOne (x :: xs), by rw [camelPassOne]; simp [h]⟩

lemma camelPassTwo_cons_underscore (a : Char) (X : List Char) :
    camelPassTwo (a :: '_' :: X) = a :: '_' :: camelPassTwo X := by
  cases X with
  | nil => rfl
  | cons x xs =>
    rw [camelPassTwo]
    simp only [isUpperA_underscore, Bool.false_and, Bool.and_false, Bool.false_eq_true, if_false]
    cases xs with
    | nil => rfl
    | cons y ys =>
      rw [camelPassTwo]
      simp [isUpperA_underscore]

/-- Claim C6: the camelCase normalizer inserts a boundary at each
lowercase-to-uppercase transition and before the final capital of a
capital run that is followed by a lowercase letter; the insertion passes
run before separator splitting, so `to_camel_case_key "NHLLeaders"`
yields `"nhlLeaders"`. -/
theorem C6_camel_boundaries :
    to_camel_case_key "NHLLeaders" = "nhlLeaders" ∧
    (∀ (a b : Char) (rest : List Char), isLowerA a = true → isUpperA b = true →
      camelPassTwo (camelPassOne (a :: b :: rest)) =
        a :: '_' :: camelPassTwo (camelPassOne (b :: rest))) ∧
    (∀ (u1 u2 c : Char) (rest : List Char), isUpperA u1 = true → isUpperA u2 = true →
      isLowerA c = true →
      camelPassTwo (camelPassOne (u1 :: u2 :: c :: rest)) =
        u1 :: '_' :: camelPassTwo (camelPassOne (u2 :: c :: rest))) := by
  refine ⟨by decide, ?_, ?_⟩
  · intro a b rest ha hb
    rw [camelPassOne, if_pos (by simp [ha, hb])]
    exact camelPassTwo_cons_underscore a _
  · intro u1 u2 c rest h1 h2 h3
    have e1 : camelPassOne (u1 :: u2 :: c :: rest) = u1 :: camelPassOne (u2 :: c :: rest) := by
      rw [camelPassOne]
      simp [isLowerA_eq_false_of_isUpperA h1]
    have e2 : camelPassOne (u2 :: c :: rest) = u2 :: camelPassOne (c :: rest) := by
      rw [camelPassOne]
      simp [isLowerA_eq_false_of_isUpperA h2]
    obtain ⟨t, ht⟩ := camelPassOne_cons_head c rest
    rw [e1, e2, ht, camelPassTwo, if_pos (by simp [h1, h2, h3])]

theorem C6_camel_boundaries_witness :
    camelPassTwo (camelPassOne ['a', 'B']) = 'a' :: '_' :: camelPassTwo (camelPassOne ['B']) ∧
    camelPassTwo (camelPassOne ['N', 'H', 'l']) =
      'N' :: '_' :: camelPassTwo (camelPassOne ['H', 'l']) := by
  exact ⟨C6_camel_boundaries.2.1 'a' 'B' [] (by decide) (by decide),
    C6_camel_boundaries.2.2 'N' 'H' 'l' [] (by decide) (by decide) (by decide)⟩

lemma backtick_wrap_ne_empty (cn : String) : "`" ++ cn ++ "`" ≠ "" := by
  intro h
  have hd := congrArg String.data h
  rw [String.data_append, String.data_append,
    show ("`" : String).data = ['`'] from rfl,
    show ("" : String).data = [] from rfl] at hd
  simp at hd

lemma escape_swift_ne_empty (cn : String) : escape_swift cn ≠ "" := by
  rw [escape_swift]
  split
  · exact backtick_wrap_ne_empty cn
  · split
    · decide
    · next h2 => exact h2

lemma escape_kotlin_ne_empty (cn : String) : escape_kotlin cn ≠ "" := by
  rw [escape_kotlin]
  split
  · exact backtick_wrap_ne_empty cn
  · split
    · decide
    · next h2 => exact h2

/-- Claim C9: the extractors and normalizers are total on every string:
appending a bare trailing `%` never changes an extraction (the bounds
check skips it), and the case-name generators always produce a non-empty
result, falling back to their literals on degenerate input. -/
theorem C9_extractors_and_normalizers_total :
    (∀ s : String, extract_substitution_parameters (s ++ "%") = extract_substitution_parameters s) ∧
    (∀ s : String, extract_kotlin_parameters (s ++ "%") = extract_kotlin_parameters s) ∧
    (∀ s : String, generate_case_name s ≠ "") ∧
    (∀ s : String, generate_kotlin_case_name s ≠ "") ∧
    extract_substitution_parameters "%" = "" ∧
    to_camel_case_key "" = "unknown" ∧
    to_upper_camel_case "" = "Unknown" := by
  refine ⟨?_, ?_, ?_, ?_, by decide, by decide, by decide⟩
  · intro s
    by_cases hs : s = ""
    · subst hs; decide
    · have hne : s ++ "%" ≠ "" := by
        intro h
        have hd := congrArg String.data h
        rw [String.data_append, show ("%" : String).data = ['%'] from rfl,
          show ("" : String).data = [] from rfl] at hd
        simp at hd
      rw [extract_substitution_parameters, extract_substitution_parameters,
        if_neg hne, if_neg hs, String.data_append,
        show ("%" : String).data = ['%'] from rfl, scanParams_append_pct]
  · intro s
    by_cases hs : s = ""
    · subst hs; decide
    · have hne : s ++ "%" ≠ "" := by
        intro h
        have hd := congrArg String.data h
        rw [String.data_append, show ("%" : String).data = ['%'] from rfl,
          show ("" : String).data = [] from rfl] at hd
        simp at hd
      rw [extract_kotlin_parameters, extract_kotlin_parameters,
        if_neg hne, if_neg hs, String.data_append,
        show ("%" : String).data = ['%'] from rfl, scanKotlinParams_append_pct]
  · intro s
    rw [generate_case_name]
    exact escape_swift_ne_empty _
  · intro s
    rw [generate_kotlin_case_name]
    exact escape_kotlin_ne_empty _

lemma tck_all_disallowed {s : String} (hs : s ≠ "")
    (h : ∀ c ∈ s.data, isAlnumA c = false ∧ isSepA c = false) :
    to_camel_case_key s = "" := by
  have hfil : s.data.filter (fun c => isAlnumA c || isSepA c) = [] := by
    rw [List.filter_eq_nil_iff]
    intro a ha
    simp [(h a ha).1, (h a ha).2]
  rw [to_camel_case_key, if_neg hs]
  simp only [hfil]
  rfl

lemma tucc_all_disallowed {s : String} (hs : s ≠ "")
    (h : ∀ c ∈ s.data, isAlnumA c = false ∧ isWsA c = false) :
    to_upper_camel_case s = "" := by
  have hmap : ∀ c ∈ s.data.map (fun c => if isAlnumA c || isWsA c then c else ' '),
      isWsA c = true := by
    intro c hc
    rcases List.mem_map.mp hc with ⟨a, ha, rfl⟩
    rw [(h a ha).1, (h a ha).2]
    norm_num
    decide
  have hwords : (splitRuns isWsA
      (s.data.map (fun c => if isAlnumA c || isWsA c then c else ' '))).filter
        (fun w => w ≠ []) = [] := by
    rw [List.filter_eq_nil_iff]
    intro a ha
    simp [splitRuns_all_sep hmap a ha]
  rw [to_upper_camel_case, if_neg hs]
  simp only [hwords]
  rfl

/-- Claim C3 counterexample: on an all-punctuation input the underlying
normalizers return the empty string, not their fallback literals. -/
theorem C3_counterexample :
    to_upper_camel_case "!!!" = "" ∧ to_camel_case_key "!!!" = "" ∧
    ("" : String) ≠ "Unknown" ∧ ("" : String) ≠ "unknown" := by
  decide

/-- Claim C3 (amended): every normalization form returns its fallback
literal on the empty string; on a non-empty input made only of disallowed
characters the wrapper generators `generate_case_name` /
`generate_kotlin_case_name` return `"unknown"` / `"UNKNOWN"`, while the
underlying `to_camel_case_key` / `to_upper_camel_case` return `""`. -/
theorem C3_fallback_amended :
    to_camel_case_key "" = "unknown" ∧
    to_upper_camel_case "" = "Unknown" ∧
    generate_case_name "" = "unknown" ∧
    generate_kotlin_case_name "" = "UNKNOWN" ∧
    ∀ s : String, s ≠ "" → (∀ c ∈ s.data, isAlnumA c = false ∧ isSepA c = false) →
      generate_case_name s = "unknown" ∧ generate_kotlin_case_name s = "UNKNOWN" ∧
      to_camel_case_key s = "" ∧ to_upper_camel_case s = "" := by
  refine ⟨by decide, by decide, by decide, by decide, ?_⟩
  intro s hs h
  have hws : ∀ c ∈ s.data, isWsA c = false := by
    intro c hc
    have h2 := (h c hc).2
    simp [isSepA] at h2
    exact h2.1.1.1
  have htck := tck_all_disallowed hs h
  have htucc := tucc_all_disallowed hs (fun c hc => ⟨(h c hc).1, hws c hc⟩)
  have hdot : s.data.contains '.' = false := by
    by_contra hcon
    rw [Bool.not_eq_false] at hcon
    have hmem : '.' ∈ s.data := by simpa using hcon
    have h2 := (h '.' hmem).2
    revert h2
    decide
  refine ⟨?_, ?_, htck, htucc⟩
  · rw [generate_case_name]
    simp only [hdot, Bool.false_eq_true, if_false]
    rw [htck]
    decide
  · rw [generate_kotlin_case_name]
    simp only [hdot, Bool.false_eq_true, if_false]
    rw [htck]
    decide

theorem C3_fallback_amended_witness :
    generate_case_name "???" = "unknown" ∧ generate_kotlin_case_name "???" = "UNKNOWN" ∧
    to_camel_case_key "???" = "" ∧ to_upper_camel_case "???" = "" :=
  C3_fallback_amended.2.2.2.2 "???" (by decide) (by decide)

/-- The 62 ASCII alphanumeric characters. -/
def alnumChars : List Char :=
  "abcdefghijklmnopqrstuvwxyzABCDEFGHIJKLMNOPQRSTUVWXYZ0123456789".data

lemma alnum_mem {c : Char} (h : isAlnumA c = true) : c ∈ alnumChars := by
  have hc : Char.ofNat c.toNat = c := Char.ofNat_toNat c
  simp only [isAlnumA, isLowerA, isUpperA, isDigitA, Bool.or_eq_true, Bool.and_eq_true,
    decide_eq_true_eq] at h
  rcases h with (⟨h1, h2⟩ | ⟨h1, h2⟩) | ⟨h1, h2⟩
  · have hn1 : (97 : Nat) ≤ c.toNat := h1
    have hn2 : c.toNat ≤ 122 := h2
    set n := c.toNat with hn
    rw [← hc]
    interval_cases n <;> decide
  · have hn1 : (65 : Nat) ≤ c.toNat := h1
    have hn2 : c.toNat ≤ 90 := h2
    set n := c.toNat with hn
    rw [← hc]
    interval_cases n <;> decide
  · have hn1 : (48 : Nat) ≤ c.toNat := h1
    have hn2 : c.toNat ≤ 57 := h2
    set n := c.toNat with hn
    rw [← hc]
    interval_cases n <;> decide

lemma alnum_all (P : Char → Bool) (hall : ∀ x ∈ alnumChars, P x = true)
    {c : Char} (h : isAlnumA c = true) : P c = true :=
  hall c (alnum_mem h)

lemma lowerChar_alnum {c : Char} (h : isAlnumA c = true) : isAlnumA (lowerChar c) = true :=
  alnum_all (fun x => isAlnumA (lowerChar x)) (by decide) h

lemma upperChar_alnum {c : Char} (h : isAlnumA c = true) : isAlnumA (upperChar c) = true :=
  alnum_all (fun x => isAlnumA (upperChar x)) (by decide) h

lemma capitalize_alnum {part : List Char} (h : ∀ c ∈ part, isAlnumA c = true) :
    ∀ c ∈ capitalize part, isAlnumA c = true := by
  cases part with
  | nil => simp [capitalize]
  | cons a as =>
    intro c hc
    rw [capitalize] at hc
    rcases List.mem_cons.mp hc with h1 | h1
    · subst h1; exact upperChar_alnum (h a (List.mem_cons_self _ _))
    · rcases List.mem_map.mp h1 with ⟨b, hb, rfl⟩
      exact lowerChar_alnum (h b (List.mem_cons_of_mem _ hb))

lemma camelPassOne_chars : ∀ (l : List Char) (c : Char),
    c ∈ camelPassOne l → c ∈ l ∨ c = '_' := by
  intro l
  induction l using camelPassOne.induct with
  | case1 c1 c2 rest hcond ih =>
    intro c hc
    rw [camelPassOne, if_pos hcond] at hc
    rcases List.mem_cons.mp hc with h1 | h1
    · exact Or.inl (h1 ▸ List.mem_cons_self _ _)
    · rcases List.mem_cons.mp h1 with h2 | h2
      · exact Or.inr h2
      · rcases ih c h2 with h3 | h3
        · exact Or.inl (List.mem_cons_of_mem _ h3)
        · exact Or.inr h3
  | case2 c1 c2 rest hcond ih =>
    intro c hc
    rw [camelPassOne, if_neg hcond] at hc
    rcases List.mem_cons.mp hc with h1 | h1
    · exact Or.inl (h1 ▸ List.mem_cons_self _ _)
    · rcases ih c h1 with h3 | h3
      · exact Or.inl (List.mem_cons_of_mem _ h3)
      · exact Or.inr h3
  | case3 l hno =>
    intro c hc
    cases l with
    | nil => simp [camelPassOne] at hc
    | cons a as =>
      cases as with
      | nil => exact Or.inl (by simpa [camelPassOne] using hc)
      | cons b bs => exact absurd rfl (hno a b bs)

lemma camelPassTwo_chars : ∀ (l : List Char) (c : Char),
    c ∈ camelPassTwo l → c ∈ l ∨ c = '_' := by
  intro l
  induction l using camelPassTwo.induct with
  | case1 c1 c2 c3 rest hcond ih =>
    intro c hc
    rw [camelPassTwo, if_pos hcond] at hc
    rcases List.mem_cons.mp hc with h1 | h1
    · exact Or.inl (h1 ▸ List.mem_cons_self _ _)
    · rcases List.mem_cons.mp h1 with h2 | h2
      · exact Or.inr h2
      · rcases ih c h2 with h3 | h3
        · exact Or.inl (List.mem_cons_of_mem _ h3)
        · exact Or.inr h3
  | case2 c1 c2 c3 rest hcond ih =>
    intro c hc
    rw [camelPassTwo, if_neg hcond] at hc
    rcases List.mem_cons.mp hc with h1 | h1
    · exact Or.inl (h1 ▸ List.mem_cons_self _ _)
    · rcases ih c h1 with h3 | h3
      · exact Or.inl (List.mem_cons_of_mem _ h3)
      · exact Or.inr h3
  | case3 l hno =>
    intro c hc
    cases l with
    | nil => simp [camelPassTwo] at hc
    | cons a as =>
      cases as with
      | nil => exact Or.inl (by simpa [camelPassTwo] using hc)
      | cons b bs =>
        cases bs with
        | nil =>
          refine Or.inl ?_
          have : camelPassTwo [a, b] = [a, b] := rfl
          rw [this] at hc
          exact hc
        | cons d ds => exact absurd rfl (hno a b d ds)

lemma mem_foldl_cap : ∀ (parts : List (List Char)) (acc : List Char) (c : Char),
    c ∈ parts.foldl (fun acc part => if part ≠ [] then acc ++ capitalize part else acc) acc →
    c ∈ acc ∨ ∃ part ∈ parts, c ∈ capitalize part := by
  intro parts
  induction parts with
  | nil =>
    intro acc c hc
    exact Or.inl hc
  | cons q qs ih =>
    intro acc c hc
    simp only [List.foldl_cons] at hc
    rcases ih _ c hc with h | ⟨part, hp, hcp⟩
    · by_cases hq : q ≠ []
      · rw [if_pos hq] at h
        rcases List.mem_append.mp h with h1 | h1
        · exact Or.inl h1
        · exact Or.inr ⟨q, List.mem_cons_self _ _, h1⟩
      · rw [if_neg hq] at h
        exact Or.inl h
    · exact Or.inr ⟨part, List.mem_cons_of_mem _ hp, hcp⟩

lemma tck_data_alnum (s : String) : ∀ c ∈ (to_camel_case_key s).data, isAlnumA c = true := by
  by_cases hs : s = ""
  · subst hs; decide
  · have hpartsAlnum : ∀ part ∈ splitRuns isSepA
        (camelPassTwo (camelPassOne (s.data.filter (fun c => isAlnumA c || isSepA c)))),
        ∀ c ∈ part, isAlnumA c = true := by
      intro part hpart c hc
      have hms := mem_splitRuns part hpart c hc
      have hmk : c ∈ camelPassOne (s.data.filter (fun c => isAlnumA c || isSepA c)) ∨ c = '_' :=
        camelPassTwo_chars _ c hms.1
      have hcl : c ∈ s.data.filter (fun c => isAlnumA c || isSepA c) ∨ c = '_' := by
        rcases hmk with h1 | h1
        · exact camelPassOne_chars _ c h1
        · exact Or.inr h1
      rcases hcl with h1 | h1
      · have := (List.mem_filter.mp h1).2
        rcases Bool.or_eq_true_iff.mp this with h2 | h2  -- may need correct name
        · exact h2
        · rw [h2] at hms
          exact absurd hms.2 (by simp)
      · subst h1
        exact absurd hms.2 (by decide)
    cases hsp : splitRuns isSepA
        (camelPassTwo (camelPassOne (s.data.filter (fun c => isAlnumA c || isSepA c)))) with
    | nil => exact absurd hsp (splitRuns_ne_nil _ _)
    | cons p rest =>
      have hform : to_camel_case_key s = String.mk (rest.foldl
          (fun acc part => if part ≠ [] then acc ++ capitalize part else acc)
          (p.map lowerChar)) := by
        rw [to_camel_case_key, if_neg hs]
        simp only [hsp]
      rw [hform]
      intro c hc
      have hc2 : c ∈ rest.foldl
          (fun acc part => if part ≠ [] then acc ++ capitalize part else acc)
          (p.map lowerChar) := hc
      rcases mem_foldl_cap rest _ c hc2 with h1 | ⟨part, hp, hcp⟩
      · rcases List.mem_map.mp h1 with ⟨b, hb, rfl⟩
        exact lowerChar_alnum (hpartsAlnum p (by rw [hsp]; exact List.mem_cons_self _ _) b hb)
      · exact capitalize_alnum
          (hpartsAlnum part (by rw [hsp]; exact List.mem_cons_of_mem _ hp)) c hcp

lemma string_eq_empty_of_data {s : String} (h : s.data = []) : s = "" := by
  cases s with
  | mk d => cases h; rfl

lemma string_data_ne_nil {s : String} (h : s ≠ "") : s.data ≠ [] :=
  fun h2 => h (string_eq_empty_of_data h2)

lemma alnum_ne_specials {c : Char} (h : isAlnumA c = true) :
    c ≠ '-' ∧ c ≠ ' ' ∧ c ≠ '_' ∧ c ≠ '`' := by
  have hm := alnum_mem h
  refine ⟨?_, ?_, ?_, ?_⟩ <;> (intro he; subst he; revert hm; decide)

lemma digit_guard_alnum_chars {pre cn : String}
    (hpre : ∀ c ∈ pre.data, isAlnumA c = true)
    (hcn : ∀ c ∈ cn.data, isAlnumA c = true) :
    ∀ c ∈ (digit_guard pre cn).data, isAlnumA c = true := by
  rw [digit_guard]
  split
  · intro c hc
    rw [String.data_append] at hc
    rcases List.mem_append.mp hc with h1 | h1
    · exact hpre c h1
    · exact hcn c h1
  · exact hcn

lemma swift_case_name_valid (ck : String) :
    ((∀ c ∈ (escape_swift (digit_guard "key" (to_camel_case_key ck))).data, isAlnumA c = true) ∧
     (escape_swift (digit_guard "key" (to_camel_case_key ck))).data ≠ [] ∧
     ((escape_swift (digit_guard "key" (to_camel_case_key ck))).data.headD ' ').isDigit = false) ∨
    (∃ kw ∈ swift_keywords,
      escape_swift (digit_guard "key" (to_camel_case_key ck)) = "`" ++ kw ++ "`") := by
  have halnum0 : ∀ c ∈ (to_camel_case_key ck).data, isAlnumA c = true := tck_data_alnum ck
  have hdga : ∀ c ∈ (digit_guard "key" (to_camel_case_key ck)).data, isAlnumA c = true :=
    digit_guard_alnum_chars (by decide) halnum0
  have hdghead : digit_guard "key" (to_camel_case_key ck) ≠ "" →
      (((digit_guard "key" (to_camel_case_key ck)).data.headD ' ').isDigit) = false := by
    intro hne
    cases hcond : (decide (to_camel_case_key ck ≠ "") &&
        ((to_camel_case_key ck).data.headD ' ').isDigit) with
    | true =>
      have hdgeq : digit_guard "key" (to_camel_case_key ck) = "key" ++ to_camel_case_key ck := by
        rw [digit_guard, hcond]
        simp
      rw [hdgeq, String.data_append, show ("key" : String).data = ['k', 'e', 'y'] from rfl]
      simp [List.headD]
    | false =>
      have hdgeq : digit_guard "key" (to_camel_case_key ck) = to_camel_case_key ck := by
        rw [digit_guard, hcond]
        simp
      rcases Bool.and_eq_false_iff.mp hcond with h1 | h1
      · exfalso
        apply hne
        rw [hdgeq]
        have : ¬(to_camel_case_key ck ≠ "") := of_decide_eq_false h1
        exact not_not.mp this
      · rw [hdgeq]
        exact h1
  cases hkw : swift_keywords.contains (digit_guard "key" (to_camel_case_key ck)) with
  | true =>
    refine Or.inr ⟨digit_guard "key" (to_camel_case_key ck), ?_, ?_⟩
    · simpa using hkw
    · rw [escape_swift, if_pos hkw]
  | false =>
    by_cases hde : digit_guard "key" (to_camel_case_key ck) = ""
    · have hesc : escape_swift (digit_guard "key" (to_camel_case_key ck)) = "unknown" := by
        rw [escape_swift, hkw]
        simp [hde]
      rw [hesc]
      exact Or.inl (by decide)
    · have hesc : escape_swift (digit_guard "key" (to_camel_case_key ck)) =
          digit_guard "key" (to_camel_case_key ck) := by
        rw [escape_swift, hkw]
        simp [hde]
      rw [hesc]
      exact Or.inl ⟨hdga, string_data_ne_nil hde, hdghead hde⟩

lemma kotlin_upper_alnum {s : String} (h : ∀ c ∈ s.data, isAlnumA c = true) :
    ∀ c ∈ (kotlin_upper s).data, isAlnumA c = true := by
  rw [kotlin_upper]
  intro c hc
  rcases List.mem_map.mp hc with ⟨b, hb, rfl⟩
  rcases List.mem_map.mp hb with ⟨a, ha, rfl⟩
  rcases List.mem_map.mp ha with ⟨x, hx, rfl⟩
  have hxa := h x hx
  have hne := alnum_ne_specials hxa
  simp only [if_neg hne.1, if_neg hne.2.1]
  exact upperChar_alnum hxa

lemma kotlin_case_name_valid (ck : String) :
    ((∀ c ∈ (escape_kotlin (digit_guard "KEY_" (kotlin_upper (to_camel_case_key ck)))).data,
        isAlnumA c = true ∨ c = '_') ∧
     (escape_kotlin (digit_guard "KEY_" (kotlin_upper (to_camel_case_key ck)))).data ≠ [] ∧
     ((escape_kotlin (digit_guard "KEY_"
        (kotlin_upper (to_camel_case_key ck)))).data.headD ' ').isDigit = false ∧
     ('_' ∈ (escape_kotlin (digit_guard "KEY_" (kotlin_upper (to_camel_case_key ck)))).data →
       (escape_kotlin (digit_guard "KEY_"
         (kotlin_upper (to_camel_case_key ck)))).data.take 4 = "KEY_".data)) ∨
    (∃ cn : String, kotlin_keywords.contains (String.mk (cn.data.map lowerChar)) = true ∧
      escape_kotlin (digit_guard "KEY_" (kotlin_upper (to_camel_case_key ck))) = "`" ++ cn ++ "`" ∧
      '_' ∉ cn.data) := by
  have halnum1 : ∀ c ∈ (kotlin_upper (to_camel_case_key ck)).data, isAlnumA c = true :=
    kotlin_upper_alnum (tck_data_alnum ck)
  have hdga : ∀ c ∈ (digit_guard "KEY_" (kotlin_upper (to_camel_case_key ck))).data,
      isAlnumA c = true ∨ c = '_' := by
    rw [digit_guard]
    split
    · intro c hc
      rw [String.data_append] at hc
      rcases List.mem_append.mp hc with h1 | h1
      · revert h1
        have : ∀ c ∈ ("KEY_" : String).data, isAlnumA c = true ∨ c = '_' := by decide
        exact this c
      · exact Or.inl (halnum1 c h1)
    · intro c hc
      exact Or.inl (halnum1 c hc)
  have hdghead : digit_guard "KEY_" (kotlin_upper (to_camel_case_key ck)) ≠ "" →
      (((digit_guard "KEY_" (kotlin_upper (to_camel_case_key ck))).data.headD ' ').isDigit)
        = false := by
    intro hne
    cases hcond : (decide (kotlin_upper (to_camel_case_key ck) ≠ "") &&
        ((kotlin_upper (to_camel_case_key ck)).data.headD ' ').isDigit) with
    | true =>
      have hdgeq : digit_guard "KEY_" (kotlin_upper (to_camel_case_key ck)) =
          "KEY_" ++ kotlin_upper (to_camel_case_key ck) := by
        rw [digit_guard, hcond]
        simp
      rw [hdgeq, String.data_append, show ("KEY_" : String).data = ['K', 'E', 'Y', '_'] from rfl]
      simp [List.headD]
    | false =>
      have hdgeq : digit_guard "KEY_" (kotlin_upper (to_camel_case_key ck)) =
          kotlin_upper (to_camel_case_key ck) := by
        rw [digit_guard, hcond]
        simp
      rcases Bool.and_eq_false_iff.mp hcond with h1 | h1
      · exfalso
        apply hne
        rw [hdgeq]
        exact not_not.mp (of_decide_eq_false h1)
      · rw [hdgeq]
        exact h1
  have htake : '_' ∈ (digit_guard "KEY_" (kotlin_upper (to_camel_case_key ck))).data →
      (digit_guard "KEY_" (kotlin_upper (to_camel_case_key ck))).data.take 4
        = "KEY_".data := by
    intro hmem
    cases hcond : (decide (kotlin_upper (to_camel_case_key ck) ≠ "") &&
        ((kotlin_upper (to_camel_case_key ck)).data.headD ' ').isDigit) with
    | true =>
      have hdgeq : digit_guard "KEY_" (kotlin_upper (to_camel_case_key ck)) =
          "KEY_" ++ kotlin_upper (to_camel_case_key ck) := by
        rw [digit_guard, hcond]
        simp
      rw [hdgeq, String.data_append, show ("KEY_" : String).data = ['K', 'E', 'Y', '_'] from rfl]
      rfl
    | false =>
      have hdgeq : digit_guard "KEY_" (kotlin_upper (to_camel_case_key ck)) =
          kotlin_upper (to_camel_case_key ck) := by
        rw [digit_guard, hcond]
        simp
      rw [hdgeq] at hmem
      have := halnum1 '_' hmem
      exact absurd this (by decide)
  cases hkw : kotlin_keywords.contains (String.mk
      ((digit_guard "KEY_" (kotlin_upper (to_camel_case_key ck))).data.map lowerChar)) with
  | true =>
    refine Or.inr ⟨digit_guard "KEY_" (kotlin_upper (to_camel_case_key ck)), hkw, ?_, ?_⟩
    · rw [escape_kotlin, if_pos hkw]
    · intro hmem
      have hmem2 : '_' ∈ (digit_guard "KEY_" (kotlin_upper (to_camel_case_key ck))).data.map
          lowerChar :=
        List.mem_map.mpr ⟨'_', hmem, by decide⟩
      have hkmem : String.mk ((digit_guard "KEY_"
          (kotlin_upper (to_camel_case_key ck))).data.map lowerChar) ∈ kotlin_keywords := by
        simpa using hkw
      have hnokw : ∀ kw ∈ kotlin_keywords, '_' ∉ kw.data := by decide
      exact hnokw _ hkmem hmem2
  | false =>
    by_cases hde : digit_guard "KEY_" (kotlin_upper (to_camel_case_key ck)) = ""
    · have hesc : escape_kotlin (digit_guard "KEY_" (kotlin_upper (to_camel_case_key ck)))
          = "UNKNOWN" := by
        rw [escape_kotlin, hkw]
        simp [hde]
      rw [hesc]
      exact Or.inl (by decide)
    · have hesc : escape_kotlin (digit_guard "KEY_" (kotlin_upper (to_camel_case_key ck)))
          = digit_guard "KEY_" (kotlin_upper (to_camel_case_key ck)) := by
        rw [escape_kotlin, hkw]
        simp [hde]
      rw [hesc]
      exact Or.inl ⟨hdga, string_data_ne_nil hde, hdghead hde, htake⟩

/-- Claim C8: for every non-empty key the generated case name is a valid
identifier of the target grammar: all characters alphanumeric (plus the
underscore introduced only by the Kotlin `KEY_` digit prefix), non-empty,
not digit-leading, or else a reserved keyword wrapped in backticks rather
than renamed; concretely, `"case"` is emitted backtick-escaped and
digit-leading keys receive the `key`/`KEY_` prefix. -/
theorem C8_case_names_valid_identifiers :
    (∀ key : String, key ≠ "" →
      (((∀ c ∈ (generate_case_name key).data, isAlnumA c = true) ∧
        (generate_case_name key).data ≠ [] ∧
        ((generate_case_name key).data.headD ' ').isDigit = false) ∨
       (∃ kw ∈ swift_keywords, generate_case_name key = "`" ++ kw ++ "`")) ∧
      (((∀ c ∈ (generate_kotlin_case_name key).data, isAlnumA c = true ∨ c = '_') ∧
        (generate_kotlin_case_name key).data ≠ [] ∧
        ((generate_kotlin_case_name key).data.headD ' ').isDigit = false ∧
        ('_' ∈ (generate_kotlin_case_name key).data →
          (generate_kotlin_case_name key).data.take 4 = "KEY_".data)) ∨
       (∃ cn : String, kotlin_keywords.contains (String.mk (cn.data.map lowerChar)) = true ∧
         generate_kotlin_case_name key = "`" ++ cn ++ "`" ∧ '_' ∉ cn.data))) ∧
    generate_case_name "case" = "`case`" ∧
    generate_case_name "9lives" = "key9lives" ∧
    generate_kotlin_case_name "9lives" = "KEY_9LIVES" := by
  refine ⟨?_, by decide, by decide, by decide⟩
  intro key _
  constructor
  · rw [generate_case_name]
    exact swift_case_name_valid _
  · rw [generate_kotlin_case_name]
    exact kotlin_case_name_valid _

theorem C8_case_names_valid_identifiers_witness :
    ("title" : String) ≠ "" ∧
    (((∀ c ∈ (generate_case_name "title").data, isAlnumA c = true) ∧
      (generate_case_name "title").data ≠ [] ∧
      ((generate_case_name "title").data.headD ' ').isDigit = false) ∨
     (∃ kw ∈ swift_keywords, generate_case_name "title" = "`" ++ kw ++ "`")) :=
  ⟨by decide, (C8_case_names_valid_identifiers.1 "title" (by decide)).1⟩

/-- Claim C5 counterexample: a two-word key is NOT rendered as
`WORD1_WORD2` by the Kotlin case-name form; the words are uppercased and
concatenated with no separator. -/
theorem C5_counterexample :
    generate_kotlin_case_name "confirm_button" = "CONFIRMBUTTON" ∧
    ("CONFIRMBUTTON" : String) ≠ "CONFIRM_BUTTON" := by
  decide

/-- Claim C5 (amended): the Kotlin case-name form uppercases the
camelCase normalization, so multi-word inputs come out concatenated with
no `_` separator (e.g. `"confirm_button"` ↦ `"CONFIRMBUTTON"`,
`"someKey"` ↦ `"SOMEKEY"`); an underscore appears in the result only as
part of the `KEY_` digit-prefix. -/
theorem C5_kotlin_name_amended :
    generate_kotlin_case_name "confirm_button" = "CONFIRMBUTTON" ∧
    generate_kotlin_case_name "someKey" = "SOMEKEY" ∧
    ∀ key : String, '_' ∈ (generate_kotlin_case_name key).data →
      (generate_kotlin_case_name key).data.take 4 = "KEY_".data := by
  refine ⟨by decide, by decide, ?_⟩
  intro key hmem
  replace hmem : '_' ∈ (escape_kotlin (digit_guard "KEY_" (kotlin_upper (to_camel_case_key
    (if key.data.contains '.' then String.mk (afterLastDot key.data) else key))))).data := hmem
  show (escape_kotlin (digit_guard "KEY_" (kotlin_upper (to_camel_case_key
    (if key.data.contains '.' then String.mk (afterLastDot key.data) else key))))).data.take 4
      = "KEY_".data
  rcases kotlin_case_name_valid
      (if key.data.contains '.' then String.mk (afterLastDot key.data) else key) with
    ⟨_, _, _, htake⟩ | ⟨cn, _, heq, hnot⟩
  · exact htake hmem
  · rw [heq] at hmem
    exfalso
    rw [String.data_append, String.data_append,
      show ("`" : String).data = ['`'] from rfl] at hmem
    simp only [List.mem_append, List.mem_singleton] at hmem
    rcases hmem with (h | h) | h
    · exact absurd h (by decide)
    · exact hnot h
    · exact absurd h (by decide)

theorem C5_kotlin_name_amended_witness :
    '_' ∈ (generate_kotlin_case_name "9lives").data ∧
    (generate_kotlin_case_name "9lives").data.take 4 = "KEY_".data :=
  ⟨by decide, C5_kotlin_name_amended.2.2 "9lives" (by decide)⟩

lemma dictKeys_aux (l : List String) :
    ∀ (acc : List String) (s : String),
      s ∈ l.foldl (fun acc s => if acc.contains s then acc else acc ++ [s]) acc ↔
        s ∈ acc ∨ s ∈ l := by
  induction l with
  | nil => intro acc s; simp
  | cons a as ih =>
    intro acc s
    rw [List.foldl_cons]
    by_cases hc : acc.contains a
    · rw [if_pos hc]
      rw [ih acc s]
      have hmem : a ∈ acc := by simpa using hc
      constructor
      · rintro (h | h)
        · exact Or.inl h
        · exact Or.inr (List.mem_cons_of_mem _ h)
      · rintro (h | h)
        · exact Or.inl h
        · rcases List.mem_cons.mp h with h1 | h1
          · exact Or.inl (h1 ▸ hmem)
          · exact Or.inr h1
    · rw [if_neg hc]
      rw [ih (acc ++ [a]) s]
      simp only [List.mem_append, List.mem_singleton, List.mem_cons]
      tauto

lemma mem_dictKeys_iff {l : List String} {s : String} : s ∈ dictKeys l ↔ s ∈ l := by
  rw [dictKeys, dictKeys_aux l [] s]
  simp

lemma dictKeys_ne_nil {l : List String} (h : l ≠ []) : dictKeys l ≠ [] := by
  cases l with
  | nil => exact absurd rfl h
  | cons a as =>
    exact List.ne_nil_of_mem (mem_dictKeys_iff.mpr (List.mem_cons_self _ _))

lemma casesFor_length_pos {tcs : List TestCase} {s : String}
    (h : s ∈ dictKeys (tcs.map (fun tc => tc.section_name))) :
    0 < (casesFor tcs s).length := by
  rcases List.mem_map.mp (mem_dictKeys_iff.mp h) with ⟨tc, htc, heq⟩
  have : tc ∈ casesFor tcs s :=
    List.mem_filter.mpr ⟨htc, by simp [heq]⟩
  exact List.length_pos.mpr (List.ne_nil_of_mem this)

lemma kotlinCasesFor_length_pos {tcs : List KotlinTestCase} {s : String}
    (h : s ∈ dictKeys (tcs.map (fun tc => tc.section_name))) :
    0 < (kotlinCasesFor tcs s).length := by
  rcases List.mem_map.mp (mem_dictKeys_iff.mp h) with ⟨tc, htc, heq⟩
  have : tc ∈ kotlinCasesFor tcs s :=
    List.mem_filter.mpr ⟨htc, by simp [heq]⟩
  exact List.length_pos.mpr (List.ne_nil_of_mem this)

/-- Claim C10: in both testing-helper samplers, grouping only creates a
section key when it holds at least one case, so the section list of a
non-empty inventory is non-empty and every grouped case list is
non-empty: on each of the 300 iterations both modulo divisors are
strictly positive. -/
theorem C10_sampler_modulo_divisors_positive :
    (∀ tcs : List TestCase, tcs ≠ [] →
      0 < (dictKeys (tcs.map (fun tc => tc.section_name))).length ∧
      ∀ i, i < 300 →
        0 < (casesFor tcs ((dictKeys (tcs.map (fun tc => tc.section_name))).getD
          ((i * 7 + i / 3) % (dictKeys (tcs.map (fun tc => tc.section_name))).length)
          "")).length) ∧
    (∀ tcs : List KotlinTestCase, tcs ≠ [] →
      0 < (dictKeys (tcs.map (fun tc => tc.section_name))).length ∧
      ∀ i, i < 300 →
        0 < (kotlinCasesFor tcs ((dictKeys (tcs.map (fun tc => tc.section_name))).getD
          ((i * 7 + i / 3) % (dictKeys (tcs.map (fun tc => tc.section_name))).length)
          "")).length) := by
  constructor
  · intro tcs hne
    have hmapne : tcs.map (fun tc => tc.section_name) ≠ [] := by
      simpa using hne
    have hpos : 0 < (dictKeys (tcs.map (fun tc => tc.section_name))).length :=
      List.length_pos.mpr (dictKeys_ne_nil hmapne)
    refine ⟨hpos, fun i _ => ?_⟩
    have hlt : (i * 7 + i / 3) % (dictKeys (tcs.map (fun tc => tc.section_name))).length <
        (dictKeys (tcs.map (fun tc => tc.section_name))).length := Nat.mod_lt _ hpos
    rw [List.getD_eq_getElem _ _ hlt]
    exact casesFor_length_pos (List.getElem_mem hlt)
  · intro tcs hne
    have hmapne : tcs.map (fun tc => tc.section_name) ≠ [] := by
      simpa using hne
    have hpos : 0 < (dictKeys (tcs.map (fun tc => tc.section_name))).length :=
      List.length_pos.mpr (dictKeys_ne_nil hmapne)
    refine ⟨hpos, fun i _ => ?_⟩
    have hlt : (i * 7 + i / 3) % (dictKeys (tcs.map (fun tc => tc.section_name))).length <
        (dictKeys (tcs.map (fun tc => tc.section_name))).length := Nat.mod_lt _ hpos
    rw [List.getD_eq_getElem _ _ hlt]
    exact kotlinCasesFor_length_pos (List.getElem_mem hlt)

theorem C10_sampler_modulo_divisors_positive_witness :
    ([⟨"Home", "title", "String"⟩] : List TestCase) ≠ [] ∧
    0 < (dictKeys (([⟨"Home", "title", "String"⟩] : List TestCase).map
      (fun tc => tc.section_name))).length :=
  ⟨by decide, (C10_sampler_modulo_divisors_positive.1 [⟨"Home", "title", "String"⟩]
    (by decide)).1⟩

lemma renderSampleCase_eq_spec (i : Nat) (tc : TestCase)
    (h : ∀ pt ∈ (splitCommaSpace tc.parameters.data).map String.mk,
      pt = "String" ∨ pt = "Int" ∨
        (strContains pt "String" = false ∧ strContains pt "Int" = false)) :
    renderSampleCase i tc = specRenderCase i tc := by
  rw [renderSampleCase, specRenderCase]
  by_cases hp : tc.parameters = ""
  · rw [if_neg (by simp [hp]), if_pos hp]
  · rw [if_pos hp, if_neg (by simp [hp])]
    have hmaps : ((splitCommaSpace tc.parameters.data).map String.mk).enum.map (fun jp =>
        if strContains jp.2 "String" then
          "\"Test" ++ toString (i + 1) ++ "Param" ++ toString (jp.1 + 1) ++ "\""
        else if strContains jp.2 "Int" then
          toString ((i + 1) * (jp.1 + 1))
        else
          "\"Value" ++ toString (i + 1) ++ "_" ++ toString (jp.1 + 1) ++ "\"") =
      ((splitCommaSpace tc.parameters.data).map String.mk).enum.map (fun jp =>
        if jp.2 = "String" then
          "\"Test" ++ toString (i + 1) ++ "Param" ++ toString (jp.1 + 1) ++ "\""
        else if jp.2 = "Int" then
          toString ((i + 1) * (jp.1 + 1))
        else
          "\"Value" ++ toString (i + 1) ++ "_" ++ toString (jp.1 + 1) ++ "\"") := by
      apply List.map_congr_left
      rintro ⟨j, pt⟩ hjp
      have hptmem : pt ∈ (splitCommaSpace tc.parameters.data).map String.mk := by
        rcases List.mem_enum hjp with ⟨hlt, hgt⟩
        rw [hgt]
        exact List.getElem_mem hlt
      rcases h pt hptmem with rfl | rfl | ⟨hS, hI⟩
      · simp [show strContains "String" "String" = true from by decide]
      · simp [show strContains "Int" "String" = false from by decide,
          show strContains "Int" "Int" = true from by decide]
      · have h1 : pt ≠ "String" := by rintro rfl; exact absurd hS (by decide)
        have h2 : pt ≠ "Int" := by rintro rfl; exact absurd hI (by decide)
        simp [hS, hI, h1, h2]
    simp only [hmaps]

/-- Claim C2: for a non-empty inventory whose parameter strings are
`", "`-joined type names, the sampler emits exactly 300 invocations and
the i-th one selects section `sections[(i*7 + i//3) mod S]`, the case at
index `(i*3 + i//5) mod L` in that section's list, and renders the
literal arguments from `(i, j, type)` as the specification states; an
empty inventory yields an empty result. -/
theorem C2_sampler_deterministic_shape :
    ∀ tcs : List TestCase,
      (∀ tc ∈ tcs, ∀ pt ∈ (splitCommaSpace tc.parameters.data).map String.mk,
        pt = "String" ∨ pt = "Int" ∨
          (strContains pt "String" = false ∧ strContains pt "Int" = false)) →
      (tcs = [] → consistent_cases tcs = []) ∧
      (tcs ≠ [] →
        (consistent_cases tcs).length = 300 ∧
        ∀ i, i < 300 → (consistent_cases tcs).getD i "" = specSampleAt tcs i) := by
  intro tcs htyped
  constructor
  · rintro rfl
    rfl
  · intro hne
    have hsec : dictKeys (tcs.map (fun tc => tc.section_name)) ≠ [] := dictKeys_ne_nil (by simpa using hne)
    have hccs : consistent_cases tcs = (List.range 300).map
        (fun i => renderSampleCase i ((casesFor tcs ((dictKeys (tcs.map (fun tc => tc.section_name))).getD ((i * 7 + i / 3) % (dictKeys (tcs.map (fun tc => tc.section_name))).length) "")).getD ((i * 3 + i / 5) % (casesFor tcs ((dictKeys (tcs.map (fun tc => tc.section_name))).getD ((i * 7 + i / 3) % (dictKeys (tcs.map (fun tc => tc.section_name))).length) "")).length) default)) := by
      show (if dictKeys (tcs.map (fun tc => tc.section_name)) = [] then []
        else (List.range 300).map (fun i => renderSampleCase i ((casesFor tcs ((dictKeys (tcs.map (fun tc => tc.section_name))).getD ((i * 7 + i / 3) % (dictKeys (tcs.map (fun tc => tc.section_name))).length) "")).getD ((i * 3 + i / 5) % (casesFor tcs ((dictKeys (tcs.map (fun tc => tc.section_name))).getD ((i * 7 + i / 3) % (dictKeys (tcs.map (fun tc => tc.section_name))).length) "")).length) default))) = _
      rw [if_neg hsec]
    refine ⟨by rw [hccs]; simp, ?_⟩
    intro i hi
    have hlen : i < ((List.range 300).map
        (fun i => renderSampleCase i ((casesFor tcs ((dictKeys (tcs.map (fun tc => tc.section_name))).getD ((i * 7 + i / 3) % (dictKeys (tcs.map (fun tc => tc.section_name))).length) "")).getD ((i * 3 + i / 5) % (casesFor tcs ((dictKeys (tcs.map (fun tc => tc.section_name))).getD ((i * 7 + i / 3) % (dictKeys (tcs.map (fun tc => tc.section_name))).length) "")).length) default))).length := by
      simpa using hi
    rw [hccs, List.getD_eq_getElem _ _ hlen, List.getElem_map, List.getElem_range]
    have hpos : 0 < (dictKeys (tcs.map (fun tc => tc.section_name))).length := List.length_pos.mpr hsec
    have hslt : (i * 7 + i / 3) % (dictKeys (tcs.map (fun tc => tc.section_name))).length < (dictKeys (tcs.map (fun tc => tc.section_name))).length :=
      Nat.mod_lt _ hpos
    have hsmem : (dictKeys (tcs.map (fun tc => tc.section_name))).getD ((i * 7 + i / 3) % (dictKeys (tcs.map (fun tc => tc.section_name))).length) "" ∈ dictKeys (tcs.map (fun tc => tc.section_name)) := by
      rw [List.getD_eq_getElem _ _ hslt]
      exact List.getElem_mem hslt
    have hcpos : 0 < (casesFor tcs ((dictKeys (tcs.map (fun tc => tc.section_name))).getD ((i * 7 + i / 3) % (dictKeys (tcs.map (fun tc => tc.section_name))).length) "")).length := casesFor_length_pos hsmem
    have hclt : (i * 3 + i / 5) % (casesFor tcs ((dictKeys (tcs.map (fun tc => tc.section_name))).getD ((i * 7 + i / 3) % (dictKeys (tcs.map (fun tc => tc.section_name))).length) "")).length < (casesFor tcs ((dictKeys (tcs.map (fun tc => tc.section_name))).getD ((i * 7 + i / 3) % (dictKeys (tcs.map (fun tc => tc.section_name))).length) "")).length :=
      Nat.mod_lt _ hcpos
    have hselmem : ((casesFor tcs ((dictKeys (tcs.map (fun tc => tc.section_name))).getD ((i * 7 + i / 3) % (dictKeys (tcs.map (fun tc => tc.section_name))).length) "")).getD ((i * 3 + i / 5) % (casesFor tcs ((dictKeys (tcs.map (fun tc => tc.section_name))).getD ((i * 7 + i / 3) % (dictKeys (tcs.map (fun tc => tc.section_name))).length) "")).length) default) ∈ casesFor tcs ((dictKeys (tcs.map (fun tc => tc.section_name))).getD ((i * 7 + i / 3) % (dictKeys (tcs.map (fun tc => tc.section_name))).length) "") := by
      rw [List.getD_eq_getElem _ _ hclt]
      exact List.getElem_mem hclt
    have hseltcs : ((casesFor tcs ((dictKeys (tcs.map (fun tc => tc.section_name))).getD ((i * 7 + i / 3) % (dictKeys (tcs.map (fun tc => tc.section_name))).length) "")).getD ((i * 3 + i / 5) % (casesFor tcs ((dictKeys (tcs.map (fun tc => tc.section_name))).getD ((i * 7 + i / 3) % (dictKeys (tcs.map (fun tc => tc.section_name))).length) "")).length) default) ∈ tcs := (List.mem_filter.mp hselmem).1
    show renderSampleCase i ((casesFor tcs ((dictKeys (tcs.map (fun tc => tc.section_name))).getD ((i * 7 + i / 3) % (dictKeys (tcs.map (fun tc => tc.section_name))).length) "")).getD ((i * 3 + i / 5) % (casesFor tcs ((dictKeys (tcs.map (fun tc => tc.section_name))).getD ((i * 7 + i / 3) % (dictKeys (tcs.map (fun tc => tc.section_name))).length) "")).length) default) = specRenderCase i ((casesFor tcs ((dictKeys (tcs.map (fun tc => tc.section_name))).getD ((i * 7 + i / 3) % (dictKeys (tcs.map (fun tc => tc.section_name))).length) "")).getD ((i * 3 + i / 5) % (casesFor tcs ((dictKeys (tcs.map (fun tc => tc.section_name))).getD ((i * 7 + i / 3) % (dictKeys (tcs.map (fun tc => tc.section_name))).length) "")).length) default)
    exact renderSampleCase_eq_spec i _ (htyped _ hseltcs)

theorem C2_sampler_deterministic_shape_witness :
    ([⟨"Home", "title", "String, Int"⟩] : List TestCase) ≠ [] ∧
    (consistent_cases [⟨"Home", "title", "String, Int"⟩]).length = 300 ∧
    (consistent_cases [⟨"Home", "title", "String, Int"⟩]).getD 0 "" =
      specSampleAt [⟨"Home", "title", "String, Int"⟩] 0 := by
  have h := (C2_sampler_deterministic_shape [⟨"Home", "title", "String, Int"⟩]
    (by decide)).2 (by decide)
  exact ⟨by decide, h.1, h.2 0 (by decide)⟩

lemma keyLe_total : ∀ xs ys : List Char, (keyLe xs ys || keyLe ys xs) = true := by
  intro xs
  induction xs with
  | nil => intro ys; simp [keyLe]
  | cons x xs ih =>
    intro ys
    cases ys with
    | nil => simp [keyLe]
    | cons y ys =>
      rw [keyLe, keyLe]
      by_cases h1 : x < y
      · simp [h1]
      · by_cases h2 : y < x
        · simp [h1, h2]
        · simp only [if_neg h1, if_neg h2]
          exact ih ys

lemma keyLe_trans : ∀ xs ys zs : List Char,
    keyLe xs ys = true → keyLe ys zs = true → keyLe xs zs = true := by
  intro xs
  induction xs with
  | nil => intro ys zs _ _; simp [keyLe]
  | cons x xs ih =>
    intro ys zs h1 h2
    cases ys with
    | nil => simp [keyLe] at h1
    | cons y ys =>
      cases zs with
      | nil => simp [keyLe] at h2
      | cons z zs =>
        rw [keyLe] at h1 h2 ⊢
        by_cases hxy : x < y
        · by_cases hyz : y < z
          · rw [if_pos (lt_trans hxy hyz)]
          · by_cases hzy : z < y
            · rw [if_pos hxy] at h1
              rw [if_neg hyz, if_pos hzy] at h2
              exact absurd h2 (by simp)
            · have hyz2 : y = z := le_antisymm (not_lt.mp hzy) (not_lt.mp hyz)
              rw [if_pos (hyz2 ▸ hxy)]
        · by_cases hyx : y < x
          · rw [if_neg hxy, if_pos hyx] at h1
            exact absurd h1 (by simp)
          · have hxy2 : x = y := le_antisymm (not_lt.mp hyx) (not_lt.mp hxy)
            subst hxy2
            rw [if_neg hxy, if_neg hyx] at h1
            by_cases hyz : x < z
            · rw [if_pos hyz]
            · by_cases hzy : z < x
              · rw [if_neg hyz, if_pos hzy] at h2
                exact absurd h2 (by simp)
              · rw [if_neg hyz, if_neg hzy] at h2 ⊢
                exact ih ys zs h1 h2

lemma swift_case_step_pos (ind : String) (acc : List String × List (String × String × String))
    (e : Entry) (he : e.key ≠ "") :
    swift_case_step ind acc e =
      (acc.1 ++ [if extract_substitution_parameters e.value ≠ "" then
          ind ++ "    case " ++ generate_case_name e.key ++ "(" ++
            extract_substitution_parameters e.value ++ ")"
        else ind ++ "    case " ++ generate_case_name e.key],
       acc.2 ++ [(generate_case_name e.key, e.key, extract_substitution_parameters e.value)]) := by
  rw [swift_case_step]
  split
  · rfl
  · next h => exact absurd he h

lemma swift_case_step_neg (ind : String) (acc : List String × List (String × String × String))
    (e : Entry) (he : ¬(e.key ≠ "")) :
    swift_case_step ind acc e = acc := by
  rw [swift_case_step]
  split
  · next h => exact absurd h he
  · rfl

lemma swift_build_aux (ind : String) : ∀ (l : List Entry) (a : List String)
    (b : List (String × String × String)),
    l.foldl (swift_case_step ind) (a, b) =
    (a ++ (l.filter (fun e => e.key ≠ "")).map (fun e =>
        if extract_substitution_parameters e.value ≠ "" then
          ind ++ "    case " ++ generate_case_name e.key ++ "(" ++
            extract_substitution_parameters e.value ++ ")"
        else ind ++ "    case " ++ generate_case_name e.key),
     b ++ (l.filter (fun e => e.key ≠ "")).map (fun e =>
        (generate_case_name e.key, e.key, extract_substitution_parameters e.value))) := by
  intro l
  induction l with
  | nil => intro a b; simp
  | cons e es ih =>
    intro a b
    rw [List.foldl_cons, List.filter_cons]
    by_cases he : e.key ≠ ""
    · have hdec : decide (e.key ≠ "") = true := by simpa using he
      rw [swift_case_step_pos ind _ e he, if_pos hdec, ih]
      simp
    · have hdec : ¬(decide (e.key ≠ "") = true) := by simpa using he
      rw [swift_case_step_neg ind _ e he, if_neg hdec, ih]

lemma swift_build_cases_spec (ind : String) (entries : List Entry) :
    swift_build_cases ind entries =
      (((sorted_entries entries).filter (fun e => e.key ≠ "")).map (fun e =>
         if extract_substitution_parameters e.value ≠ "" then
           ind ++ "    case " ++ generate_case_name e.key ++ "(" ++
             extract_substitution_parameters e.value ++ ")"
         else ind ++ "    case " ++ generate_case_name e.key),
       ((sorted_entries entries).filter (fun e => e.key ≠ "")).map (fun e =>
         (generate_case_name e.key, e.key, extract_substitution_parameters e.value))) := by
  rw [swift_build_cases, swift_build_aux ind (sorted_entries entries) [] []]
  simp

/-- Claim C7: the Swift section emitter sorts entries stably and
lexicographically by key, emits exactly one case per entry with a
non-empty key in that order, and does not deduplicate entries whose keys
normalize to the same case name — two different keys both normalizing to
`aB` yield two identical case declarations. -/
theorem C7_case_order_and_non_dedup :
    (∀ (ind : String) (entries : List Entry),
      (swift_build_cases ind entries).2 =
        ((sorted_entries entries).filter (fun e => e.key ≠ "")).map
          (fun e => (generate_case_name e.key, e.key, extract_substitution_parameters e.value)) ∧
      (swift_build_cases ind entries).1 =
        (swift_build_cases ind entries).2.map (fun m =>
          if m.2.2 ≠ "" then ind ++ "    case " ++ m.1 ++ "(" ++ m.2.2 ++ ")"
          else ind ++ "    case " ++ m.1) ∧
      List.Pairwise (fun a b : Entry => keyLe a.key.data b.key.data = true)
        (sorted_entries entries) ∧
      (∀ l : List Entry,
        List.Pairwise (fun a b : Entry => keyLe a.key.data b.key.data = true) l →
        l.Sublist entries → l.Sublist (sorted_entries entries))) ∧
    (swift_build_cases "    " [⟨"a-b", "v"⟩, ⟨"a_b", "w"⟩]).1 =
      ["        case aB", "        case aB"] ∧
    generate_case_name "a-b" = generate_case_name "a_b" := by
  have htrans : ∀ a b c : Entry, keyLe a.key.data b.key.data = true →
      keyLe b.key.data c.key.data = true → keyLe a.key.data c.key.data = true :=
    fun _ _ _ hab hbc => keyLe_trans _ _ _ hab hbc
  have htotal : ∀ a b : Entry,
      (keyLe a.key.data b.key.data || keyLe b.key.data a.key.data) = true :=
    fun _ _ => keyLe_total _ _
  refine ⟨?_, ?_, by decide⟩
  · intro ind entries
    refine ⟨?_, ?_, ?_, ?_⟩
    · rw [swift_build_cases_spec]
    · rw [swift_build_cases_spec]
      simp only [List.map_map]
      rfl
    · exact List.sorted_mergeSort htrans htotal entries
    · exact fun l hp hsub => List.sublist_mergeSort htrans htotal hp hsub
  · have hs : sorted_entries [⟨"a-b", "v"⟩, ⟨"a_b", "w"⟩] =
        [⟨"a-b", "v"⟩, ⟨"a_b", "w"⟩] :=
      List.mergeSort_of_sorted (by decide)
    rw [swift_build_cases, hs]
    decide

theorem C7_case_order_and_non_dedup_witness :
    List.Pairwise (fun a b : Entry => keyLe a.key.data b.key.data = true)
      ([⟨"a", "x"⟩] : List Entry) ∧
    ([⟨"a", "x"⟩] : List Entry).Sublist [⟨"b", "y"⟩, ⟨"a", "x"⟩] ∧
    ([⟨"a", "x"⟩] : List Entry).Sublist (sorted_entries [⟨"b", "y"⟩, ⟨"a", "x"⟩]) := by
  refine ⟨by decide, ?_, ?_⟩
  · exact List.Sublist.cons _ (List.Sublist.refl _)
  · exact (C7_case_order_and_non_dedup.1 "    " [⟨"b", "y"⟩, ⟨"a", "x"⟩]).2.2.2
      [⟨"a", "x"⟩] (by decide) (List.Sublist.cons _ (List.Sublist.refl _))

/-- Claim C4 counterexample: the Kotlin emitter omits the filename
constant for a section with no entries (it is emitted inside the
`if case_definitions:` block), while the Swift emitter keeps it. -/
theorem C4_counterexample :
    (generate_kotlin_section_enum_from_entries_with_test_cases ⟨"Home", "home"⟩ [] 1).1 =
      "    enum class Home : LocalizationKey \x7b\n    \x7d\n\n" ∧
    strContains (generate_kotlin_section_enum_from_entries_with_test_cases
      ⟨"Home", "home"⟩ [] 1).1 "filename" = false ∧
    strContains (generate_section_enum_from_entries_with_test_cases
      ⟨"Home", "home"⟩ [] 1).1 "filename" = true := by
  have hk : kotlin_build_cases (indentOf 1) [] = ([], []) := by
    rw [kotlin_build_cases, show sorted_entries [] = ([] : List Entry) from List.mergeSort_nil]
    rfl
  have hsw : swift_build_cases (indentOf 1) [] = ([], []) := by
    rw [swift_build_cases, show sorted_entries [] = ([] : List Entry) from List.mergeSort_nil]
    rfl
  refine ⟨?_, ?_, ?_⟩
  · rw [generate_kotlin_section_enum_from_entries_with_test_cases]
    simp only [hk]
    decide
  · rw [generate_kotlin_section_enum_from_entries_with_test_cases]
    simp only [hk]
    decide
  · rw [generate_section_enum_from_entries_with_test_cases]
    simp only [hsw]
    decide

/-- Claim C4 (amended): a section with an empty entry list emits an
empty-bodied declaration in both emitters, but only the Swift-like
emitter includes the filename constant; the Kotlin-like emitter emits
just the header and the closing brace, with no filename constant. -/
theorem C4_empty_section_amended :
    ∀ (s : SectionData) (level : Nat),
      (generate_section_enum_from_entries_with_test_cases s [] level).1 =
        indentOf level ++ "public enum " ++ to_upper_camel_case s.title ++
          ": LocalizationKey \x7b\n" ++ indentOf level ++
          "    public var filename: String \x7b \"" ++ s.key ++ "\" \x7d\n\n" ++
          indentOf level ++ "\x7d\n\n" ∧
      (generate_section_enum_from_entries_with_test_cases s [] level).2 = [] ∧
      (generate_kotlin_section_enum_from_entries_with_test_cases s [] level).1 =
        indentOf level ++ "enum class " ++ to_upper_camel_case s.title ++
          " : LocalizationKey \x7b\n" ++ indentOf level ++ "\x7d\n\n" ∧
      (generate_kotlin_section_enum_from_entries_with_test_cases s [] level).2 = [] := by
  intro s level
  have hsw : swift_build_cases (indentOf level) [] = ([], []) := by
    rw [swift_build_cases, show sorted_entries [] = ([] : List Entry) from List.mergeSort_nil]
    rfl
  have hk : kotlin_build_cases (indentOf level) [] = ([], []) := by
    rw [kotlin_build_cases, show sorted_entries [] = ([] : List Entry) from List.mergeSort_nil]
    rfl
  refine ⟨?_, ?_, ?_, ?_⟩
  · rw [generate_section_enum_from_entries_with_test_cases]
    simp only [hsw]
    simp [String.append_assoc]
  · rw [generate_section_enum_from_entries_with_test_cases]
    simp only [hsw]
    simp
  · rw [generate_kotlin_section_enum_from_entries_with_test_cases]
    simp only [hk]
    simp [String.append_assoc]
  · rw [generate_kotlin_section_enum_from_entries_with_test_cases]
    simp only [hk]
    simp
